import Mathlib

/-!
Verification of the KeyNest encrypted-secret storage engine.

This file is a shallow embedding of the Python backend (`core/models.py`,
`core/serializers.py`, `core/views.py`, `core/utils.py`) of the KeyNest
repository.  Strings are modelled as lists of Unicode codepoints
(`Str := List Nat`); byte strings as lists of bytes.  The Fernet cipher
(an external library, `cryptography.fernet`) is modelled abstractly as a
structure carrying an encrypt/decrypt pair together with the library's
documented contract (decryption inverts encryption, ciphertext is a
non-empty byte string); the base64 step performed by the repository's own
code is implemented concretely.
-/

namespace KeyNest

/-- Strings are sequences of Unicode codepoints. -/
abbrev Str := List Nat

/-- Build a `Str` from a Lean string literal (codepoints). -/
def lit (s : String) : Str := s.data.map Char.toNat

/-- Python `str.isspace` for the codepoints relevant here (the full set used
by CPython's default `str.strip`). -/
def isPySpace (c : Nat) : Bool :=
  c = 32 ∨ c = 9 ∨ c = 10 ∨ c = 11 ∨ c = 12 ∨ c = 13 ∨
  c = 28 ∨ c = 29 ∨ c = 30 ∨ c = 31 ∨ c = 133 ∨ c = 160 ∨
  c = 5760 ∨ (8192 ≤ c ∧ c ≤ 8202) ∨ c = 8232 ∨ c = 8233 ∨
  c = 8239 ∨ c = 8287 ∨ c = 12288

/-- Python `str.strip()` (no argument): drop leading and trailing whitespace. -/
def pyStrip (s : Str) : Str :=
  (s.dropWhile isPySpace).reverse.dropWhile isPySpace |>.reverse

/-- The set of codepoints at which Python `str.splitlines` breaks a line. -/
def isLineBreak (c : Nat) : Bool :=
  c = 10 ∨ c = 11 ∨ c = 12 ∨ c = 13 ∨ c = 28 ∨ c = 29 ∨ c = 30 ∨
  c = 133 ∨ c = 8232 ∨ c = 8233

/-- Python `str.splitlines()`: split at line-break codepoints, treating
CR LF as a single break; a trailing break produces no extra empty line. -/
def pySplitlines : Str → List Str
  | [] => []
  | c :: rest =>
    if c = 13 then
      match rest with
      | 10 :: rest2 => [] :: pySplitlines rest2
      | [] => [[]]
      | d :: rest2 => [] :: pySplitlines (d :: rest2)
    else if isLineBreak c then [] :: pySplitlines rest
    else
      match pySplitlines rest with
      | [] => [[c]]
      | l :: ls => (c :: l) :: ls

/-- Python `str.lower` restricted to ASCII letters (all codepoints appearing
in the regex-validated inputs considered here are ASCII). -/
def toLowerCp (c : Nat) : Nat := if 65 ≤ c ∧ c ≤ 90 then c + 32 else c

/-- Lowercase a string codepoint-wise. -/
def lowerStr (s : Str) : Str := s.map toLowerCp

section Crypto

/-- Error kinds raised by `EnvVariable.encrypt_value` / `decrypt_value`
(`core/models.py`).  In Python all of them surface as `ValueError` with
distinct messages; the spec names them `ValueError` (empty input),
`ConfigurationError` (missing key) and `DecryptionError`. -/
inductive CryptoErr where
  | emptyValue
  | keyNotConfigured
  | decryptionFailed
deriving DecidableEq, Repr

/-- The base64 alphabet: sextet value to ASCII codepoint. -/
def enc6 (n : Nat) : Nat :=
  if n < 26 then 65 + n
  else if n < 52 then 97 + (n - 26)
  else if n < 62 then 48 + (n - 52)
  else if n = 62 then 43
  else 47

/-- Inverse of `enc6`: ASCII codepoint to sextet value. -/
def dec6 (c : Nat) : Option Nat :=
  if 65 ≤ c ∧ c ≤ 90 then some (c - 65)
  else if 97 ≤ c ∧ c ≤ 122 then some (26 + (c - 97))
  else if 48 ≤ c ∧ c ≤ 57 then some (52 + (c - 48))
  else if c = 43 then some 62
  else if c = 47 then some 63
  else none

/-- Standard base64 encoding of a byte sequence (models Python
`base64.b64encode`). -/
def b64encode : List Nat → Str
  | [] => []
  | [a] => [enc6 (a / 4), enc6 (a % 4 * 16), 61, 61]
  | [a, b] => [enc6 (a / 4), enc6 (a % 4 * 16 + b / 16), enc6 (b % 16 * 4), 61]
  | a :: b :: c :: rest =>
    enc6 (a / 4) :: enc6 (a % 4 * 16 + b / 16) ::
    enc6 (b % 16 * 4 + c / 64) :: enc6 (c % 64) :: b64encode rest

/-- Base64 decoding (models Python `base64.b64decode`); fails on input that
is not a well-formed base64 text. -/
def b64decode : Str → Option (List Nat)
  | [] => some []
  | c1 :: c2 :: c3 :: c4 :: rest =>
    match dec6 c1, dec6 c2 with
    | some d1, some d2 =>
      if c3 = 61 ∧ c4 = 61 ∧ rest = [] then
        some [d1 * 4 + d2 / 16]
      else
        match dec6 c3 with
        | some d3 =>
          if c4 = 61 ∧ rest = [] then
            some [d1 * 4 + d2 / 16, d2 % 16 * 16 + d3 / 4]
          else
            match dec6 c4, b64decode rest with
            | some d4, some bs =>
              some ((d1 * 4 + d2 / 16) :: (d2 % 16 * 16 + d3 / 4) ::
                    (d3 % 4 * 64 + d4) :: bs)
            | _, _ => none
        | none => none
    | _, _ => none
  | _ => none

theorem dec6_enc6 : ∀ n, n < 64 → dec6 (enc6 n) = some n := by decide

theorem enc6_ne_pad : ∀ n, n < 64 → enc6 n ≠ 61 := by decide

/-- Decoding inverts encoding on byte sequences. -/
theorem b64decode_b64encode :
    ∀ bs : List Nat, (∀ b ∈ bs, b < 256) → b64decode (b64encode bs) = some bs
  | [], _ => rfl
  | [a], h => by
    have ha : a < 256 := h a (by simp)
    have h1 : a / 4 < 64 := by omega
    have h2 : a % 4 * 16 < 64 := by omega
    simp [b64encode, b64decode, dec6_enc6 _ h1, dec6_enc6 _ h2]
    omega
  | [a, b], h => by
    have ha : a < 256 := h a (by simp)
    have hb : b < 256 := h b (by simp)
    have h1 : a / 4 < 64 := by omega
    have h2 : a % 4 * 16 + b / 16 < 64 := by omega
    have h3 : b % 16 * 4 < 64 := by omega
    simp [b64encode, b64decode, dec6_enc6 _ h1, dec6_enc6 _ h2, dec6_enc6 _ h3,
      enc6_ne_pad _ h3]
    omega
  | a :: b :: c :: rest, h => by
    have ha : a < 256 := h a (by simp)
    have hb : b < 256 := h b (by simp)
    have hc : c < 256 := h c (by simp)
    have h1 : a / 4 < 64 := by omega
    have h2 : a % 4 * 16 + b / 16 < 64 := by omega
    have h3 : b % 16 * 4 + c / 64 < 64 := by omega
    have h4 : c % 64 < 64 := by omega
    have ih := b64decode_b64encode rest (by
      intro x hx; exact h x (by simp [hx]))
    simp [b64encode, b64decode, dec6_enc6 _ h1, dec6_enc6 _ h2, dec6_enc6 _ h3,
      dec6_enc6 _ h4, enc6_ne_pad _ h3, enc6_ne_pad _ h4, ih]
    omega

/-- Abstract model of the external `cryptography.fernet.Fernet` cipher under
one fixed key: an encrypt/decrypt pair satisfying the library's documented
contract.  Fernet tokens are non-empty byte strings and decryption of a
token produced by `encrypt` returns the original message. -/
structure FernetCipher where
  encrypt : List Nat → List Nat
  decrypt : List Nat → Option (List Nat)
  decrypt_encrypt : ∀ m, decrypt (encrypt m) = some m
  encrypt_ne : ∀ m, encrypt m ≠ []
  encrypt_lt : ∀ m, (∀ b ∈ m, b < 256) → ∀ c ∈ encrypt m, c < 256

/-- `EnvVariable.encrypt_value` (`core/models.py` lines 141-167): reject an
empty plaintext, then reject a missing `ENCRYPTION_KEY`, then store
`base64(fernet.encrypt(plaintext))`.  The configured key is `some cipher`;
`none` models an absent/empty `ENCRYPTION_KEY` setting.  The plaintext is
represented by its UTF-8 byte sequence. -/
def encrypt_value (key : Option FernetCipher) (plain : List Nat) :
    Except CryptoErr Str :=
  if plain = [] then .error .emptyValue
  else
    match key with
    | none => .error .keyNotConfigured
    | some f => .ok (b64encode (f.encrypt plain))

/-- `EnvVariable.decrypt_value` (`core/models.py` lines 169-196): an empty
stored ciphertext yields the empty string; otherwise a missing key is an
error, and the stored text is base64-decoded and fernet-decrypted, any
failure surfacing as a decryption error. -/
def decrypt_value (key : Option FernetCipher) (stored : Str) :
    Except CryptoErr (List Nat) :=
  if stored = [] then .ok []
  else
    match key with
    | none => .error .keyNotConfigured
    | some f =>
      match b64decode stored with
      | none => .error .decryptionFailed
      | some bytes =>
        match f.decrypt bytes with
        | none => .error .decryptionFailed
        | some m => .ok m

theorem b64encode_ne_nil : ∀ l : List Nat, l ≠ [] → b64encode l ≠ []
  | [], h => absurd rfl h
  | [_], _ => by simp [b64encode]
  | [_, _], _ => by simp [b64encode]
  | _ :: _ :: _ :: _, _ => by simp [b64encode]

/-- Sealing a non-empty byte-bounded plaintext with a configured cipher
succeeds, and unsealing the stored text recovers the plaintext. -/
theorem unseal_seal (f : FernetCipher) (p : List Nat)
    (hne : p ≠ []) (hbytes : ∀ b ∈ p, b < 256) :
    decrypt_value (some f) (b64encode (f.encrypt p)) = .ok p ∧
    encrypt_value (some f) p = .ok (b64encode (f.encrypt p)) := by
  refine ⟨?_, by simp [encrypt_value, hne]⟩
  have hct : f.encrypt p ≠ [] := f.encrypt_ne p
  have hstored : b64encode (f.encrypt p) ≠ [] := b64encode_ne_nil _ hct
  have hdec : b64decode (b64encode (f.encrypt p)) = some (f.encrypt p) :=
    b64decode_b64encode _ (f.encrypt_lt p hbytes)
  simp [decrypt_value, hstored, hdec, f.decrypt_encrypt]

/-- A concrete instance of the cipher contract, used to evaluate the model
at concrete inputs. -/
def probeCipher : FernetCipher where
  encrypt m := 128 :: m
  decrypt c :=
    match c with
    | 128 :: m => some m
    | _ => none
  decrypt_encrypt _ := rfl
  encrypt_ne _ := by simp
  encrypt_lt m h c hc := by
    rcases List.mem_cons.mp hc with h1 | h2
    · omega
    · exact h c h2

end Crypto

/-- C4: for every non-empty plaintext, with an encryption key configured,
decrypting the stored ciphertext produced by encrypting it returns the
plaintext exactly: `unseal (seal p) = p`.  The plaintext is given by its
UTF-8 byte sequence (hence bytes below 256). -/
theorem seal_unseal_roundtrip (f : FernetCipher) (p : List Nat)
    (hne : p ≠ []) (hbytes : ∀ b ∈ p, b < 256) :
    ∃ stored, encrypt_value (some f) p = .ok stored ∧
      decrypt_value (some f) stored = .ok p :=
  ⟨b64encode (f.encrypt p), (unseal_seal f p hne hbytes).2,
    (unseal_seal f p hne hbytes).1⟩

theorem seal_unseal_roundtrip_witness :
    ∃ stored, encrypt_value (some probeCipher) [104, 105] = .ok stored ∧
      decrypt_value (some probeCipher) stored = .ok [104, 105] :=
  seal_unseal_roundtrip probeCipher [104, 105] (by decide) (by decide)

/-- C5 counterexample: with no key configured and an empty input, `seal`
raises the empty-value error, not the missing-key (configuration) error —
the claim's "ConfigurationError for any input" fails at the empty input. -/
theorem seal_empty_nokey_cex :
    encrypt_value none [] = .error .emptyValue ∧
      CryptoErr.emptyValue ≠ CryptoErr.keyNotConfigured :=
  ⟨rfl, by decide⟩

/-- C5 (amended): `seal` raises the empty-value error whenever the input is
empty (this check precedes the key check), and raises the configuration
error on non-empty input when no key is configured; `unseal` raises a
decryption error on malformed (non-base64) stored ciphertext and on
ciphertext the cipher rejects, while an empty stored ciphertext yields the
empty string without error. -/
theorem seal_unseal_errors_amended :
    (∀ key, encrypt_value key [] = .error .emptyValue) ∧
    (∀ p : List Nat, p ≠ [] → encrypt_value none p = .error .keyNotConfigured) ∧
    (∀ f stored, stored ≠ [] → b64decode stored = none →
      decrypt_value (some f) stored = .error .decryptionFailed) ∧
    (∀ f stored bytes, stored ≠ [] → b64decode stored = some bytes →
      f.decrypt bytes = none →
      decrypt_value (some f) stored = .error .decryptionFailed) ∧
    (∀ key, decrypt_value key [] = .ok []) := by
  refine ⟨fun key => by simp [encrypt_value], fun p hp => by simp [encrypt_value, hp],
    fun f stored hne hdec => ?_, fun f stored bytes hne hdec hrej => ?_,
    fun key => by simp [decrypt_value]⟩
  · simp [decrypt_value, hne, hdec]
  · simp [decrypt_value, hne, hdec, hrej]

theorem seal_unseal_errors_amended_witness :
    encrypt_value (some probeCipher) [] = .error .emptyValue ∧
    encrypt_value none [104] = .error .keyNotConfigured ∧
    decrypt_value (some probeCipher) [33, 33, 33, 33] = .error .decryptionFailed ∧
    decrypt_value (some probeCipher) (b64encode [0, 1]) = .error .decryptionFailed ∧
    decrypt_value (some probeCipher) [] = .ok [] :=
  ⟨seal_unseal_errors_amended.1 (some probeCipher),
   seal_unseal_errors_amended.2.1 [104] (by decide),
   seal_unseal_errors_amended.2.2.1 probeCipher [33, 33, 33, 33] (by decide) (by decide),
   seal_unseal_errors_amended.2.2.2.1 probeCipher (b64encode [0, 1]) [0, 1]
     (by decide) (by decide) (by decide),
   seal_unseal_errors_amended.2.2.2.2 (some probeCipher)⟩

section Variables

/-- Audit actions recorded by the variable endpoints (`AuditLog.ACTION_CHOICES`,
restricted to the ones the modelled paths emit). -/
inductive AuditAct where
  | create
  | update
deriving DecidableEq, Repr

/-- The persistent state of one `EnvVariable` row together with its
`EnvVariableVersion` rows (pairs of `version_number` and snapshotted
`encrypted_value`, newest first) and the audit entries recorded for it. -/
structure VariableState where
  encrypted_value : Str
  versions : List (Nat × Str)
  audit : List AuditAct
deriving DecidableEq, Repr

/-- `EnvVariableSerializer.update` (`core/serializers.py` lines 274-287):
if a new value is provided, encrypt it into `encrypted_value`; no other
state is touched — in particular no `EnvVariableVersion` row is created. -/
def serializer_update (key : Option FernetCipher) (st : VariableState)
    (newValue : Option Str) : Except CryptoErr VariableState :=
  match newValue with
  | none => .ok st
  | some v =>
    match encrypt_value key v with
    | .error e => .error e
    | .ok ct => .ok { st with encrypted_value := ct }

/-- `EnvVariableViewSet.perform_update` (`core/views.py` lines 771-791):
run the serializer update and record an `update` audit entry. -/
def perform_update (key : Option FernetCipher) (st : VariableState)
    (newValue : Option Str) : Except CryptoErr VariableState :=
  match serializer_update key st newValue with
  | .error e => .error e
  | .ok st' => .ok { st' with audit := .update :: st'.audit }

/-- A freshly created variable holding the sealed value of `v0`:
`EnvVariableSerializer.create` encrypts the value and saves; no version row
is created and a `create` audit entry is recorded by `perform_create`. -/
def freshVariable (key : FernetCipher) (v0 : Str) : VariableState :=
  { encrypted_value := b64encode (key.encrypt v0), versions := [], audit := [.create] }

/-- Two successive successful value updates of a freshly created variable. -/
def afterTwoUpdates : Except CryptoErr VariableState :=
  match perform_update (some probeCipher) (freshVariable probeCipher (lit "v0"))
      (some (lit "v1")) with
  | .error e => .error e
  | .ok st1 => perform_update (some probeCipher) st1 (some (lit "v2"))

end Variables

/-- C1: the update path never snapshots into `EnvVariableVersion`.  After two
successful updates of a fresh variable the version list is still empty
(the claim expects entries numbered 1 and 2), while the current sealed
value does hold the latest written value. -/
theorem update_creates_no_versions :
    (afterTwoUpdates.map fun st => st.versions) = .ok [] ∧
    (afterTwoUpdates.map fun st =>
      decrypt_value (some probeCipher) st.encrypted_value) = .ok (.ok (lit "v2")) := by
  constructor <;> rfl

section Visibility

/-- Membership roles (`OrganizationMembership.ROLE_CHOICES`). -/
inductive Role where
  | admin
  | editor
  | viewer
deriving DecidableEq, Repr

/-- Marker returned in place of a value hidden from viewers. -/
def HIDDEN : Str := lit "[HIDDEN]"

/-- Marker returned to callers with no membership. -/
def NO_ACCESS : Str := lit "[NO_ACCESS]"

/-- Marker substituted when decryption of a stored value fails. -/
def DECRYPTION_ERROR : Str := lit "[DECRYPTION_ERROR]"

/-- `EnvVariableSerializer.get_decrypted_value` (`core/serializers.py` lines
192-213): admins and editors receive the decrypted value (or the decryption
error marker), anyone else with a membership receives the hidden marker,
non-members receive the no-access marker. -/
def get_decrypted_value (membership : Option Role) (key : Option FernetCipher)
    (stored : Str) : Str :=
  match membership with
  | none => NO_ACCESS
  | some r =>
    if r = .admin ∨ r = .editor then
      match decrypt_value key stored with
      | .ok m => m
      | .error _ => DECRYPTION_ERROR
    else HIDDEN

/-- Per-variable value decryption in `export_env_file` (`core/views.py` lines
905-912): a decryption failure is replaced by the error marker. -/
def export_decrypt (key : Option FernetCipher) (stored : Str) : Str :=
  match decrypt_value key stored with
  | .ok m => m
  | .error _ => DECRYPTION_ERROR

/-- The value-assembly step of `export_env_file` (`core/views.py` lines
876-912): any organization member — admin, editor or viewer — receives every
variable decrypted; only non-members are denied. -/
def export_env_values (membership : Option Role) (key : Option FernetCipher)
    (vars : List (Str × Str)) : Except Unit (List (Str × Str)) :=
  match membership with
  | none => .error ()
  | some r =>
    if r = .admin ∨ r = .editor ∨ r = .viewer then
      .ok (vars.map fun kv => (kv.1, export_decrypt key kv.2))
    else .error ()

end Visibility

/-- C2 counterexample: a viewer exporting an environment receives the
decrypted plaintext, not the hidden marker — the export path is not
visibility-gated. -/
theorem viewer_export_plaintext_cex :
    export_env_values (some .viewer) (some probeCipher)
      [(lit "KEY", b64encode (probeCipher.encrypt (lit "s3cret")))] =
      .ok [(lit "KEY", lit "s3cret")] ∧
    lit "s3cret" ≠ HIDDEN := by
  constructor
  · rfl
  · decide

/-- C2 (amended): reading the `decrypted_value` field as a viewer always
yields the hidden marker and an admin or editor receives the correctly
decrypted plaintext, but the export path returns the decrypted plaintext
to every member including viewers. -/
theorem visibility_amended :
    (∀ key stored, get_decrypted_value (some .viewer) key stored = HIDDEN) ∧
    (∀ (f : FernetCipher) (r : Role) (p : List Nat), r = .admin ∨ r = .editor →
      p ≠ [] → (∀ b ∈ p, b < 256) →
      get_decrypted_value (some r) (some f) (b64encode (f.encrypt p)) = p) ∧
    (∀ (f : FernetCipher) (k p : List Nat), p ≠ [] → (∀ b ∈ p, b < 256) →
      export_env_values (some .viewer) (some f)
        [(k, b64encode (f.encrypt p))] = .ok [(k, p)]) := by
  refine ⟨fun key stored => by simp [get_decrypted_value], fun f r p hr hne hb => ?_,
    fun f k p hne hb => ?_⟩
  · simp [get_decrypted_value, hr, (unseal_seal f p hne hb).1]
  · simp [export_env_values, export_decrypt, (unseal_seal f p hne hb).1]

theorem visibility_amended_witness :
    get_decrypted_value (some .viewer) (some probeCipher)
      (b64encode (probeCipher.encrypt (lit "s3cret"))) = HIDDEN ∧
    get_decrypted_value (some .admin) (some probeCipher)
      (b64encode (probeCipher.encrypt (lit "s3cret"))) = lit "s3cret" ∧
    export_env_values (some .viewer) (some probeCipher)
      [(lit "K", b64encode (probeCipher.encrypt (lit "s3cret")))] =
      .ok [(lit "K", lit "s3cret")] :=
  ⟨visibility_amended.1 (some probeCipher) _,
   visibility_amended.2.1 probeCipher .admin (lit "s3cret") (Or.inl rfl)
     (by decide) (by decide),
   visibility_amended.2.2 probeCipher (lit "K") (lit "s3cret")
     (by decide) (by decide)⟩

section Memberships

/-- One `OrganizationMembership` row of a fixed organization; users are
identified by their id and are unique per organization (DB constraint
`unique_together ('user', 'organization')`). -/
structure Membership where
  user : Nat
  role : Role
deriving DecidableEq, Repr

/-- Outcome of the membership-mutating endpoints. -/
inductive MemberOpResult where
  | permissionDenied
  | notFound
  | selfModification
  | lastAdmin
  | ok (members : List Membership)
deriving DecidableEq, Repr

/-- Number of admin memberships in the organization. -/
def adminCount (ms : List Membership) : Nat :=
  (ms.filter fun m => m.role = Role.admin).length

/-- `OrganizationMembership.objects.get(user_id=uid, organization=org)`. -/
def findMember (ms : List Membership) (uid : Nat) : Option Membership :=
  ms.find? fun m => m.user = uid

/-- `OrganizationViewSet.update_member_role` (`core/views.py` lines 327-456):
only admins may act; the target must be a member; changing one's own role is
rejected; demoting an admin when at most one admin exists is rejected;
setting the same role is a no-op; otherwise the target's role is updated. -/
def update_member_role (ms : List Membership) (actor target : Nat)
    (newRole : Role) : MemberOpResult :=
  match findMember ms actor with
  | none => .permissionDenied
  | some am =>
    if am.role ≠ .admin then .permissionDenied
    else
      match findMember ms target with
      | none => .notFound
      | some tm =>
        if target = actor then .selfModification
        else if tm.role = .admin ∧ newRole ≠ .admin ∧ adminCount ms ≤ 1 then
          .lastAdmin
        else if tm.role = newRole then .ok ms
        else .ok (ms.map fun m =>
          if m.user = target then { m with role := newRole } else m)

/-- `OrganizationViewSet.remove_member` (`core/views.py` lines 466-581):
only admins may act; the target must be a member; removing oneself is
rejected; removing an admin when at most one admin exists is rejected;
otherwise the membership row is deleted. -/
def remove_member (ms : List Membership) (actor target : Nat) :
    MemberOpResult :=
  match findMember ms actor with
  | none => .permissionDenied
  | some am =>
    if am.role ≠ .admin then .permissionDenied
    else
      match findMember ms target with
      | none => .notFound
      | some tm =>
        if target = actor then .selfModification
        else if tm.role = .admin ∧ adminCount ms ≤ 1 then .lastAdmin
        else .ok (ms.filter fun m => ¬ m.user = target)

theorem findMember_user {ms : List Membership} {uid : Nat} {m : Membership}
    (h : findMember ms uid = some m) : m.user = uid ∧ m ∈ ms := by
  refine ⟨?_, List.mem_of_find?_eq_some h⟩
  have := List.find?_some h
  simpa using this

/-- Changing one member's role changes `adminCount` by the difference of the
admin-indicators of the old and new role (users are unique). -/
theorem adminCount_setRole (ms : List Membership) (target : Nat)
    (tm : Membership) (r : Role)
    (hnd : (ms.map Membership.user).Nodup)
    (hfind : findMember ms target = some tm) :
    adminCount (ms.map fun m =>
        if m.user = target then { m with role := r } else m) +
      (if tm.role = Role.admin then 1 else 0) =
    adminCount ms + (if r = Role.admin then 1 else 0) := by
  induction ms with
  | nil => simp [findMember] at hfind
  | cons m rest ih =>
    simp only [List.map_cons, List.nodup_cons] at hnd
    by_cases hm : m.user = target
    · have htm : tm = m := by
        simp [findMember, hm] at hfind
        exact hfind.symm
      have hrest : (rest.map fun x =>
          if x.user = target then { x with role := r } else x) = rest := by
        apply List.map_congr_left ?_ |>.trans (List.map_id rest)
        intro x hx
        have : x.user ≠ target := by
          intro he
          apply hnd.1
          rw [hm, ← he]
          exact List.mem_map_of_mem Membership.user hx
        simp [this]
      subst htm
      simp only [List.map_cons, hm, if_pos rfl, hrest, adminCount,
        List.filter_cons]
      by_cases hr : r = Role.admin <;> by_cases ht : tm.role = Role.admin <;>
        simp [hr, ht] <;> omega
    · have hfind' : findMember rest target = some tm := by
        simpa [findMember, hm] using hfind
      have := ih hnd.2 hfind'
      simp only [List.map_cons, hm, if_neg hm, adminCount, List.filter_cons]
      by_cases hmr : m.role = Role.admin <;>
        simp [hmr, adminCount] at this ⊢ <;> try omega

/-- Deleting one member's row decreases `adminCount` by that member's
admin-indicator (users are unique). -/
theorem adminCount_remove (ms : List Membership) (target : Nat)
    (tm : Membership)
    (hnd : (ms.map Membership.user).Nodup)
    (hfind : findMember ms target = some tm) :
    adminCount (ms.filter fun m => ¬ m.user = target) +
      (if tm.role = Role.admin then 1 else 0) = adminCount ms := by
  induction ms with
  | nil => simp [findMember] at hfind
  | cons m rest ih =>
    simp only [List.map_cons, List.nodup_cons] at hnd
    by_cases hm : m.user = target
    · have htm : tm = m := by
        simp [findMember, hm] at hfind
        exact hfind.symm
      have hrest : (rest.filter fun x => ¬ x.user = target) = rest := by
        apply List.filter_eq_self.mpr
        intro x hx
        have : x.user ≠ target := by
          intro he
          apply hnd.1
          rw [hm, ← he]
          exact List.mem_map_of_mem Membership.user hx
        simpa using this
      subst htm
      simp only [List.filter_cons, hm, adminCount, hrest]
      by_cases ht : tm.role = Role.admin <;> simp [ht, hm] <;> omega
    · have hfind' : findMember rest target = some tm := by
        simpa [findMember, hm] using hfind
      have := ih hnd.2 hfind'
      simp only [List.filter_cons, adminCount, hm] at this ⊢
      by_cases hmr : m.role = Role.admin <;> simp [hmr, adminCount] at this ⊢ <;>
        try omega

theorem eq_of_mem_length_one {α : Type _} {xs : List α} (h : xs.length = 1)
    {a b : α} (ha : a ∈ xs) (hb : b ∈ xs) : a = b := by
  obtain ⟨x, rfl⟩ := List.length_eq_one.mp h
  simp at ha hb
  rw [ha, hb]

/-- Acting on one's own membership is rejected as a self-modification, for
both role change and removal. -/
theorem memberOp_self (ms : List Membership) (actor : Nat) (r : Role)
    (am : Membership) (hfa : findMember ms actor = some am)
    (hadm : am.role = Role.admin) :
    update_member_role ms actor actor r = .selfModification ∧
    remove_member ms actor actor = .selfModification := by
  unfold update_member_role remove_member
  simp [hfa, hadm]

/-- When the organization has a single admin, a permitted actor targeting an
admin member is necessarily targeting themselves. -/
theorem single_admin_target_self (ms : List Membership) (actor target : Nat)
    (am tm : Membership) (hfa : findMember ms actor = some am)
    (hadm : am.role = Role.admin) (hft : findMember ms target = some tm)
    (htm : tm.role = Role.admin) (hcount : adminCount ms = 1) :
    target = actor := by
  have h1 := findMember_user hfa
  have h2 := findMember_user hft
  have hamf : am ∈ ms.filter fun m => m.role = Role.admin :=
    List.mem_filter.mpr ⟨h1.2, by simp [hadm]⟩
  have htmf : tm ∈ ms.filter fun m => m.role = Role.admin :=
    List.mem_filter.mpr ⟨h2.2, by simp [htm]⟩
  have heq : am = tm := eq_of_mem_length_one hcount hamf htmf
  rw [← h2.1, ← heq, h1.1]

/-- Any successful role change leaves at least one admin in place. -/
theorem update_ok_adminCount (ms : List Membership) (actor target : Nat)
    (newRole : Role) (ms' : List Membership)
    (hnd : (ms.map Membership.user).Nodup) (hge : 1 ≤ adminCount ms)
    (h : update_member_role ms actor target newRole = .ok ms') :
    1 ≤ adminCount ms' := by
  unfold update_member_role at h
  split at h
  · simp at h
  split at h
  · simp at h
  split at h
  · simp at h
  rename_i tm hft
  split at h
  · simp at h
  split at h
  · simp at h
  rename_i hguard
  split at h
  · cases h
    exact hge
  rename_i hsame
  cases h
  have hcnt := adminCount_setRole ms target tm newRole hnd hft
  by_cases htm : tm.role = Role.admin
  · have hnew : newRole ≠ Role.admin := fun he => hsame (htm.trans he.symm)
    have hbig : ¬ adminCount ms ≤ 1 := fun hle => hguard ⟨htm, hnew, hle⟩
    rw [if_pos htm, if_neg hnew] at hcnt
    omega
  · by_cases hnew : newRole = Role.admin
    · rw [if_neg htm, if_pos hnew] at hcnt
      omega
    · rw [if_neg htm, if_neg hnew] at hcnt
      omega

/-- Any successful member removal leaves at least one admin in place. -/
theorem remove_ok_adminCount (ms : List Membership) (actor target : Nat)
    (ms' : List Membership)
    (hnd : (ms.map Membership.user).Nodup) (hge : 1 ≤ adminCount ms)
    (h : remove_member ms actor target = .ok ms') :
    1 ≤ adminCount ms' := by
  unfold remove_member at h
  split at h
  · simp at h
  split at h
  · simp at h
  split at h
  · simp at h
  rename_i tm hft
  split at h
  · simp at h
  split at h
  · simp at h
  rename_i hguard
  cases h
  have hcnt := adminCount_remove ms target tm hnd hft
  by_cases htm : tm.role = Role.admin
  · have hbig : ¬ adminCount ms ≤ 1 := fun hle => hguard ⟨htm, hle⟩
    rw [if_pos htm] at hcnt
    omega
  · rw [if_neg htm] at hcnt
    omega

end Memberships

/-- C9 counterexample: removing the only admin of an organization — the one
operation that would leave zero admins — is rejected as a self-modification,
not with the last-admin error: the last-admin rejection claimed by the spec
is not the error this code produces. -/
theorem last_admin_error_cex :
    remove_member [⟨1, Role.admin⟩] 1 1 = .selfModification ∧
    MemberOpResult.selfModification ≠ MemberOpResult.lastAdmin := by
  constructor
  · rfl
  · decide

/-- C9 (amended): every organization retains at least one admin membership
and self-modification is rejected, but an operation that would leave zero
admins is necessarily the sole admin acting on themselves and is therefore
rejected with the self-modification error (the last-admin rejection branch
cannot fire): (1) acting on one's own membership is rejected; (2) a
permitted operation targeting an admin while only one admin exists targets
the actor themselves and is rejected as self-modification, changing
nothing; (3,4) every successful role change or removal leaves at least one
admin. -/
theorem membership_guard_amended :
    (∀ ms actor r am, findMember ms actor = some am → am.role = Role.admin →
      update_member_role ms actor actor r = .selfModification ∧
      remove_member ms actor actor = .selfModification) ∧
    (∀ ms actor target newRole am tm,
      findMember ms actor = some am → am.role = Role.admin →
      findMember ms target = some tm → tm.role = Role.admin →
      adminCount ms = 1 →
      update_member_role ms actor target newRole = .selfModification ∧
      remove_member ms actor target = .selfModification) ∧
    (∀ ms actor target newRole ms', (ms.map Membership.user).Nodup →
      1 ≤ adminCount ms → update_member_role ms actor target newRole = .ok ms' →
      1 ≤ adminCount ms') ∧
    (∀ ms actor target ms', (ms.map Membership.user).Nodup →
      1 ≤ adminCount ms → remove_member ms actor target = .ok ms' →
      1 ≤ adminCount ms') := by
  refine ⟨fun ms actor r am hfa hadm => memberOp_self ms actor r am hfa hadm,
    fun ms actor target newRole am tm hfa hadm hft htm hcount => ?_,
    fun ms actor target newRole ms' hnd hge h =>
      update_ok_adminCount ms actor target newRole ms' hnd hge h,
    fun ms actor target ms' hnd hge h =>
      remove_ok_adminCount ms actor target ms' hnd hge h⟩
  have hta := single_admin_target_self ms actor target am tm hfa hadm hft htm hcount
  subst hta
  exact memberOp_self ms target newRole am hfa hadm

theorem membership_guard_amended_witness :
    (update_member_role [⟨1, Role.admin⟩] 1 1 Role.viewer = .selfModification ∧
      remove_member [⟨1, Role.admin⟩] 1 1 = .selfModification) ∧
    (update_member_role [⟨1, Role.admin⟩, ⟨2, Role.viewer⟩] 1 1 Role.viewer =
        .selfModification ∧
      remove_member [⟨1, Role.admin⟩, ⟨2, Role.viewer⟩] 1 1 = .selfModification) ∧
    1 ≤ adminCount [⟨1, Role.admin⟩, ⟨2, Role.editor⟩] ∧
    1 ≤ adminCount [⟨1, Role.admin⟩] :=
  ⟨membership_guard_amended.1 [⟨1, Role.admin⟩] 1 Role.viewer ⟨1, Role.admin⟩
      (by decide) rfl,
   membership_guard_amended.2.1 [⟨1, Role.admin⟩, ⟨2, Role.viewer⟩] 1 1
      Role.viewer ⟨1, Role.admin⟩ ⟨1, Role.admin⟩ (by decide) rfl (by decide)
      rfl (by decide),
   membership_guard_amended.2.2.1 [⟨1, Role.admin⟩, ⟨2, Role.viewer⟩] 1 2
      Role.editor [⟨1, Role.admin⟩, ⟨2, Role.editor⟩] (by decide) (by decide)
      (by decide),
   membership_guard_amended.2.2.2 [⟨1, Role.admin⟩, ⟨2, Role.viewer⟩] 1 2
      [⟨1, Role.admin⟩] (by decide) (by decide) (by decide)⟩

section EnvironmentNames

/-- Characters allowed by the environment-name pattern `[a-zA-Z0-9\-_]`. -/
def isEnvNameChar (c : Nat) : Bool :=
  (97 ≤ c ∧ c ≤ 122) ∨ (65 ≤ c ∧ c ≤ 90) ∨ (48 ≤ c ∧ c ≤ 57) ∨ c = 45 ∨ c = 95

/-- Python `re` semantics of `$`: it also matches just before one final
newline, so an anchored `re.match(r'^...$', v)` examines `v` without a
single trailing newline. -/
def dropFinalNewline (s : Str) : Str :=
  if s.getLast? = some 10 then s.dropLast else s

/-- `re.match(r'^[<cls>]+$', v)` for a character class `p`. -/
def reMatchPlus (p : Nat → Bool) (s : Str) : Bool :=
  let core := dropFinalNewline s
  ¬ core.isEmpty ∧ core.all p

/-- `EnvironmentSerializer.validate_name` (`core/serializers.py` lines
129-139): the stripped name must have at least two characters and the raw
value must match `^[a-zA-Z0-9\-_]+$`; the stored name is the stripped,
lowercased submission. -/
def validate_env_name (v : Str) : Option Str :=
  if (pyStrip v).length < 2 then none
  else if ¬ reMatchPlus isEnvNameChar v then none
  else some (lowerStr (pyStrip v))

/-- `EnvironmentSerializer.validate` duplicate check plus creation
(`core/serializers.py` lines 141-173): the normalized name is compared
exactly against the project's existing (already normalized) environment
names, and a duplicate is rejected. -/
def create_environment (existing : List Str) (submitted : Str) :
    Except Unit (List Str) :=
  match validate_env_name submitted with
  | none => .error ()
  | some n => if n ∈ existing then .error () else .ok (existing ++ [n])

theorem isPySpace_toLowerCp (c : Nat) :
    isPySpace (toLowerCp c) = isPySpace c := by
  unfold toLowerCp
  by_cases h : 65 ≤ c ∧ c ≤ 90
  · rw [if_pos h]
    unfold isPySpace
    simp only [decide_eq_decide]
    omega
  · rw [if_neg h]

theorem dropWhile_lower (s : Str) :
    List.dropWhile isPySpace (s.map toLowerCp) =
      (List.dropWhile isPySpace s).map toLowerCp := by
  rw [List.dropWhile_map]
  have hp : (isPySpace ∘ toLowerCp) = isPySpace := by
    funext c
    simp [Function.comp, isPySpace_toLowerCp]
  rw [hp]

theorem lowerStr_pyStrip (s : Str) :
    lowerStr (pyStrip s) = pyStrip (lowerStr s) := by
  simp only [pyStrip, lowerStr, dropWhile_lower, ← List.map_reverse]

end EnvironmentNames

/-- C10: the stored environment name is the stripped, lowercased submission,
so two submitted names equal up to letter case normalize to the same stored
name, and once the first is created the second submission is rejected as a
duplicate by the (project, name) uniqueness check. -/
theorem env_name_normalization (a b n : Str)
    (hab : lowerStr a = lowerStr b)
    (ha : validate_env_name a = some n) :
    (∀ m, validate_env_name b = some m → m = n) ∧
    (∀ existing res, create_environment existing a = .ok res →
      create_environment res b = .error ()) := by
  have hna : n = lowerStr (pyStrip a) := by
    unfold validate_env_name at ha
    split at ha
    · exact absurd ha (by simp)
    split at ha
    · exact absurd ha (by simp)
    · simpa using ha.symm
  have hkey : ∀ m, validate_env_name b = some m → m = n := by
    intro m hb
    have hnb : m = lowerStr (pyStrip b) := by
      unfold validate_env_name at hb
      split at hb
      · exact absurd hb (by simp)
      split at hb
      · exact absurd hb (by simp)
      · simpa using hb.symm
    rw [hna, hnb, lowerStr_pyStrip, lowerStr_pyStrip, hab]
  refine ⟨hkey, fun existing res hcr => ?_⟩
  unfold create_environment at hcr ⊢
  rw [ha] at hcr
  have hcr' : (if n ∈ existing then (Except.error () : Except Unit (List Str))
      else Except.ok (existing ++ [n])) = Except.ok res := hcr
  by_cases hmem : n ∈ existing
  · rw [if_pos hmem] at hcr'
    exact absurd hcr' (by simp)
  · rw [if_neg hmem] at hcr'
    injection hcr' with hres
    subst hres
    cases hvb : validate_env_name b with
    | none => rfl
    | some m =>
      have hm : m = n := hkey m hvb
      subst hm
      show (if m ∈ existing ++ [m] then (Except.error () : Except Unit (List Str))
        else Except.ok ((existing ++ [m]) ++ [m])) = Except.error ()
      rw [if_pos (by simp)]

theorem env_name_normalization_witness :
    validate_env_name (lit "Staging") = some (lit "staging") ∧
    create_environment [] (lit "Staging") = .ok [lit "staging"] ∧
    create_environment [lit "staging"] (lit "STAGING") = .error () :=
  ⟨by decide, by rfl,
    (env_name_normalization (lit "Staging") (lit "STAGING") (lit "staging")
      (by decide) (by decide)).2 [] [lit "staging"] (by rfl)⟩

section DotenvCodec

/-- Python `str.replace(old, new)` for a single-character pattern `a`. -/
def pyReplace1 (a : Nat) (r : Str) : Str → Str
  | [] => []
  | c :: rest => (if c = a then r else [c]) ++ pyReplace1 a r rest

/-- Python `str.replace(old, new)` for a two-character pattern `a b`:
left-to-right, non-overlapping. -/
def pyReplace2 (a b : Nat) (r : Str) : Str → Str
  | [] => []
  | [c] => [c]
  | c :: d :: rest =>
    if c = a ∧ d = b then r ++ pyReplace2 a b r rest
    else c :: pyReplace2 a b r (d :: rest)

/-- The escaping applied by `generate_env_content` (`core/views.py` line
1147): `value.replace('\\', '\\\\').replace('"', '\\"')`. -/
def escapeValue (v : Str) : Str :=
  pyReplace1 34 [92, 34] (pyReplace1 92 [92, 92] v)

/-- The unescaping applied by `parse_env_file` (`core/utils.py` line 75):
`value.replace('\\"', '"').replace("\\'", "'").replace('\\\\', '\\')`. -/
def unescapeValue (v : Str) : Str :=
  pyReplace2 92 92 [92] (pyReplace2 92 39 [39] (pyReplace2 92 34 [34] v))

/-- The quoting condition of `generate_env_content` (`core/views.py` line
1146): the value contains a space, a double quote, or a newline. -/
def needsQuote (v : Str) : Bool := v.contains 32 ∨ v.contains 34 ∨ v.contains 10

/-- One line of dotenv output (`core/views.py` lines 1146-1150). -/
def formatLine (k v : Str) : Str :=
  if needsQuote v then k ++ [61, 34] ++ escapeValue v ++ [34]
  else k ++ [61] ++ v

/-- Python string comparison (codepoint-lexicographic), strict. -/
def strLt : Str → Str → Bool
  | [], [] => false
  | [], _ :: _ => true
  | _ :: _, [] => false
  | c :: cs, d :: ds => if c < d then true else if c = d then strLt cs ds else false

/-- Tuple comparison used by Python `sorted` on `(key, value)` pairs. -/
def pairLe (p q : Str × Str) : Bool :=
  strLt p.1 q.1 ∨ (p.1 = q.1 ∧ (strLt p.2 q.2 ∨ p.2 = q.2))

def insertSorted (x : Str × Str) : List (Str × Str) → List (Str × Str)
  | [] => [x]
  | y :: ys => if pairLe x y then x :: y :: ys else y :: insertSorted x ys

/-- Python `sorted(env_data.items())` (stable sort by key, then value). -/
def sortPairs : List (Str × Str) → List (Str × Str)
  | [] => []
  | x :: xs => insertSorted x (sortPairs xs)

/-- Python `'\n'.join(lines)`. -/
def joinNl : List Str → Str
  | [] => []
  | [l] => l
  | l :: l2 :: ls => l ++ 10 :: joinNl (l2 :: ls)

/-- `generate_env_content` (`core/views.py` lines 1139-1152): sort the
items, quote/escape values containing spaces, double quotes or newlines,
join with newlines and append a trailing newline. -/
def generate_env_content (env_data : List (Str × Str)) : Str :=
  joinNl ((sortPairs env_data).map fun kv => formatLine kv.1 kv.2) ++ [10]

/-- `line.split('=', 1)`: `none` when the line has no `=`. -/
def splitFirstEq : Str → Option (Str × Str)
  | [] => none
  | c :: rest =>
    if c = 61 then some ([], rest)
    else
      match splitFirstEq rest with
      | none => none
      | some (k, v) => some (c :: k, v)

/-- Python dict assignment `env_vars[key] = value`: replaces in place if the
key exists, appends otherwise. -/
def dictInsert (acc : List (Str × Str)) (k v : Str) : List (Str × Str) :=
  if acc.any fun p => p.1 = k then
    acc.map fun p => if p.1 = k then (k, v) else p
  else acc ++ [(k, v)]

/-- First character class of the key pattern `[A-Za-z_]`. -/
def isKeyStartLoose (c : Nat) : Bool :=
  (65 ≤ c ∧ c ≤ 90) ∨ (97 ≤ c ∧ c ≤ 122) ∨ c = 95

/-- Continuation character class of the key pattern `[A-Za-z0-9_]`. -/
def isKeyCharLoose (c : Nat) : Bool := isKeyStartLoose c ∨ (48 ≤ c ∧ c ≤ 57)

/-- `re.match(r'^[A-Za-z_][A-Za-z0-9_]*$', k)` — the key convention used by
`parse_env_file` and `validate_env_data` (`core/utils.py` lines 65, 106).
Per Python `re`, `$` also matches before one trailing newline. -/
def reMatchKeyLoose (s : Str) : Bool :=
  match dropFinalNewline s with
  | [] => false
  | c :: rest => isKeyStartLoose c ∧ rest.all isKeyCharLoose

/-- Uppercase ASCII letter. -/
def isUpperCp (c : Nat) : Bool := 65 ≤ c ∧ c ≤ 90

/-- Continuation character class of the strict key pattern `[A-Z0-9_]`. -/
def isKeyCharStrict (c : Nat) : Bool :=
  isUpperCp c ∨ (48 ≤ c ∧ c ≤ 57) ∨ c = 95

/-- `re.match(r'^[A-Z][A-Z0-9_]*$', k)` — the key convention enforced by
`EnvVariableSerializer.validate_key` (`core/serializers.py` line 221). -/
def reMatchKeyStrict (s : Str) : Bool :=
  match dropFinalNewline s with
  | [] => false
  | c :: rest => isUpperCp c ∧ rest.all isKeyCharStrict

/-- `EnvVariableSerializer.validate_key` (`core/serializers.py` lines
215-226): reject empty/whitespace keys and keys not matching the strict
pattern; return the stripped key. -/
def validate_key (k : Str) : Option Str :=
  if pyStrip k = [] then none
  else if ¬ reMatchKeyStrict k then none
  else some (pyStrip k)

/-- The loop body of `parse_env_file` (`core/utils.py` lines 45-77): strip
the line; skip blanks, comments, lines without `=`, empty or ill-formed
keys; strip key and value; strip a matching pair of single or double quotes
and unescape; assign into the dict. -/
def parseStep (acc : List (Str × Str)) (line : Str) : List (Str × Str) :=
  let l := pyStrip line
  if l = [] then acc
  else if l.head? = some 35 then acc
  else
    match splitFirstEq l with
    | none => acc
    | some (kRaw, vRaw) =>
      let key := pyStrip kRaw
      let value := pyStrip vRaw
      if key = [] then acc
      else if ¬ reMatchKeyLoose key then acc
      else
        let value2 :=
          if 2 ≤ value.length ∧
              ((value.head? = some 34 ∧ value.getLast? = some 34) ∨
               (value.head? = some 39 ∧ value.getLast? = some 39)) then
            unescapeValue ((value.drop 1).dropLast)
          else value
        dictInsert acc key value2

/-- `parse_env_file` (`core/utils.py` lines 33-79). -/
def parse_env_file (content : Str) : List (Str × Str) :=
  (pySplitlines content).foldl parseStep []

end DotenvCodec

section ImportMachinery

/-- Validation failures reported by `validate_env_data`
(`core/utils.py` lines 82-132), by kind. -/
inductive ValidationErr where
  | emptyKey
  | badKeyFormat (key : Str)
  | valueTooLong (key : Str)
  | duplicateKeys
  | tooManyVariables
deriving DecidableEq, Repr

/-- `validate_env_data` (`core/utils.py` lines 82-132): per-pair checks
(empty key, key format against the loose pattern, value length of at most
10000 for non-null values), then a case-insensitive duplicate-key check,
then a total count check of at most 1000. -/
def validate_env_data (data : List (Str × Option Str)) : List ValidationErr :=
  let pairErrs := (data.map fun kv =>
    if pyStrip kv.1 = [] then [ValidationErr.emptyKey]
    else
      (if ¬ reMatchKeyLoose kv.1 then [ValidationErr.badKeyFormat kv.1] else []) ++
      (match kv.2 with
       | none => []
       | some v => if 10000 < v.length then [ValidationErr.valueTooLong kv.1] else [])).flatten
  let dupErrs :=
    if (data.map fun kv => lowerStr kv.1).Nodup then []
    else [ValidationErr.duplicateKeys]
  let cntErrs := if 1000 < data.length then [ValidationErr.tooManyVariables] else []
  pairErrs ++ dupErrs ++ cntErrs

/-- Summary counters returned by `import_env_file`. -/
structure ImportSummary where
  imported : Nat
  updated : Nat
  failed : Nat
deriving DecidableEq, Repr

/-- Outcome of an import request past permission checks. -/
inductive ImportOutcome where
  | invalid (errors : List ValidationErr) (state : List (Str × Str))
  | conflict (keys : List Str) (state : List (Str × Str))
  | success (summary : ImportSummary) (state : List (Str × Str))
deriving DecidableEq, Repr

/-- One iteration of the write loop of `import_env_file` (`core/views.py`
lines 1072-1096).  `str(value)` renders a JSON/YAML null as `"None"`.  On an
update, encryption failure leaves the row unchanged; on a create the row is
inserted by `objects.create` before encryption, so an encryption failure
leaves a row with an empty stored value. -/
def importWriteStep (key : Option FernetCipher) (snapshot : List (Str × Str))
    (acc : List (Str × Str) × ImportSummary) (kv : Str × Option Str) :
    List (Str × Str) × ImportSummary :=
  let vstr := match kv.2 with
    | none => lit "None"
    | some v => v
  if snapshot.any fun p => p.1 = kv.1 then
    match encrypt_value key vstr with
    | .ok ct =>
      (acc.1.map fun p => if p.1 = kv.1 then (p.1, ct) else p,
        { acc.2 with updated := acc.2.updated + 1 })
    | .error _ => (acc.1, { acc.2 with failed := acc.2.failed + 1 })
  else
    match encrypt_value key vstr with
    | .ok ct =>
      (acc.1 ++ [(kv.1, ct)], { acc.2 with imported := acc.2.imported + 1 })
    | .error _ =>
      (acc.1 ++ [(kv.1, [])], { acc.2 with failed := acc.2.failed + 1 })

/-- `import_env_file` past parsing (`core/views.py` lines 1042-1127):
validate the parsed mapping; compute the conflicting keys against the
snapshot of existing variables; without `overwrite`, any conflict rejects
the whole import before any write; otherwise each pair is written, updating
rows whose key existed in the snapshot and creating the others, collecting
per-key failures. -/
def import_env (key : Option FernetCipher) (state : List (Str × Str))
    (data : List (Str × Option Str)) (overwrite : Bool) : ImportOutcome :=
  let errs := validate_env_data data
  if errs ≠ [] then .invalid errs state
  else
    let conflicts := (data.map Prod.fst).filter fun k => state.any fun p => p.1 = k
    if conflicts ≠ [] ∧ ¬overwrite then .conflict conflicts state
    else
      let res := data.foldl (importWriteStep key state) (state, ⟨0, 0, 0⟩)
      .success res.2 res.1

end ImportMachinery

section FormatDetection

/-- JSON whitespace. -/
def isJsonWs (c : Nat) : Bool := c = 32 ∨ c = 9 ∨ c = 10 ∨ c = 13

def jsonSkipWs : Str → Str
  | [] => []
  | c :: rest => if isJsonWs c then jsonSkipWs rest else c :: rest

def isDigitCp (c : Nat) : Bool := 48 ≤ c ∧ c ≤ 57

def isHexDigitCp (c : Nat) : Bool :=
  isDigitCp c ∨ (65 ≤ c ∧ c ≤ 70) ∨ (97 ≤ c ∧ c ≤ 102)

/-- Parse the remainder of a JSON string after the opening quote; return the
input following the closing quote. -/
def jsonStringTail (fuel : Nat) (s : Str) : Option Str :=
  match fuel, s with
  | 0, _ => none
  | _, [] => none
  | fuel + 1, c :: rest =>
    if c = 34 then some rest
    else if c = 92 then
      match rest with
      | [] => none
      | e :: rest2 =>
        if e = 34 ∨ e = 92 ∨ e = 47 ∨ e = 98 ∨ e = 102 ∨ e = 110 ∨
            e = 114 ∨ e = 116 then
          jsonStringTail fuel rest2
        else if e = 117 then
          match rest2 with
          | h1 :: h2 :: h3 :: h4 :: rest3 =>
            if isHexDigitCp h1 ∧ isHexDigitCp h2 ∧ isHexDigitCp h3 ∧
                isHexDigitCp h4 then
              jsonStringTail fuel rest3
            else none
          | _ => none
        else none
    else if c < 32 then none
    else jsonStringTail fuel rest

/-- Parse the exponent part of a JSON number (if present). -/
def jsonExpPart (s : Str) : Option Str :=
  match s with
  | c :: rest =>
    if c = 101 ∨ c = 69 then
      let rest2 := match rest with
        | d :: r => if d = 43 ∨ d = 45 then r else d :: r
        | [] => []
      match rest2 with
      | d :: r => if isDigitCp d then some (r.dropWhile isDigitCp) else none
      | [] => none
    else some (c :: rest)
  | [] => some []

/-- Parse the fraction and exponent parts of a JSON number (if present). -/
def jsonFracExp (s : Str) : Option Str :=
  match s with
  | 46 :: rest =>
    match rest with
    | c :: rest2 =>
      if isDigitCp c then jsonExpPart (rest2.dropWhile isDigitCp) else none
    | [] => none
  | _ => jsonExpPart s

/-- Parse a JSON number starting at `s`. -/
def jsonNumber (s : Str) : Option Str :=
  let s1 := match s with
    | 45 :: rest => rest
    | _ => s
  match s1 with
  | c :: rest =>
    if c = 48 then jsonFracExp rest
    else if 49 ≤ c ∧ c ≤ 57 then jsonFracExp (rest.dropWhile isDigitCp)
    else none
  | [] => none

mutual

/-- Parse one JSON value (models `json.loads` grammar acceptance). -/
def jsonValue (fuel : Nat) (s : Str) : Option Str :=
  match fuel with
  | 0 => none
  | fuel + 1 =>
    match jsonSkipWs s with
    | [] => none
    | c :: rest =>
      if c = 123 then jsonMembers fuel (jsonSkipWs rest) true
      else if c = 91 then jsonElems fuel (jsonSkipWs rest) true
      else if c = 34 then jsonStringTail (rest.length + 1) rest
      else if c = 116 then
        match rest with
        | 114 :: 117 :: 101 :: r => some r
        | _ => none
      else if c = 102 then
        match rest with
        | 97 :: 108 :: 115 :: 101 :: r => some r
        | _ => none
      else if c = 110 then
        match rest with
        | 117 :: 108 :: 108 :: r => some r
        | _ => none
      else if c = 45 ∨ isDigitCp c then jsonNumber (c :: rest)
      else none

/-- Parse the members of a JSON object after the opening brace (whitespace
already skipped); `allowEnd` says whether a closing brace may come next. -/
def jsonMembers (fuel : Nat) (s : Str) (allowEnd : Bool) : Option Str :=
  match fuel with
  | 0 => none
  | fuel + 1 =>
    match s with
    | 125 :: rest => if allowEnd then some rest else none
    | 34 :: rest =>
      match jsonStringTail (rest.length + 1) rest with
      | none => none
      | some r1 =>
        match jsonSkipWs r1 with
        | 58 :: r2 =>
          match jsonValue fuel r2 with
          | none => none
          | some r3 =>
            match jsonSkipWs r3 with
            | 44 :: r4 => jsonMembers fuel (jsonSkipWs r4) false
            | 125 :: r4 => some r4
            | _ => none
        | _ => none
    | _ => none

/-- Parse the elements of a JSON array after the opening bracket (whitespace
already skipped); `allowEnd` says whether a closing bracket may come next. -/
def jsonElems (fuel : Nat) (s : Str) (allowEnd : Bool) : Option Str :=
  match fuel with
  | 0 => none
  | fuel + 1 =>
    match s, allowEnd with
    | 93 :: rest, true => some rest
    | _, _ =>
      match jsonValue fuel s with
      | none => none
      | some r1 =>
        match jsonSkipWs r1 with
        | 44 :: r2 => jsonElems fuel r2 false
        | 93 :: r2 => some r2
        | _ => none

end

/-- `json.loads(content)` succeeds: one JSON value followed only by
whitespace. -/
def json_loads_ok (content : Str) : Bool :=
  match jsonValue (content.length + 1) content with
  | some rest => jsonSkipWs rest = []
  | none => false

/-- `file_content.strip().startswith('{')` (`core/views.py` line 1030). -/
def startsWithBrace (content : Str) : Bool :=
  match pyStrip content with
  | 123 :: _ => true
  | _ => false

/-- Python `'---' in content`. -/
def hasTripleDash : Str → Bool
  | x :: y :: z :: rest =>
    (x = 45 ∧ y = 45 ∧ z = 45) ∨ hasTripleDash (y :: z :: rest)
  | _ => false

/-- Declared import formats accepted by `import_env_file`. -/
inductive ImportFormat where
  | env
  | json
  | yaml
  | auto
deriving DecidableEq, Repr

/-- Which parser handled the content. -/
inductive ParsedContent where
  | jsonParsed (content : Str)
  | yamlParsed (content : Str)
  | envParsed (vars : List (Str × Str))
deriving DecidableEq, Repr

/-- The parsing dispatch of `import_env_file` (`core/views.py` lines
1028-1040): content is given to `json.loads` when the declared format is
json, or the format is auto and the stripped content starts with a brace
(a JSON failure rejects the import); otherwise to the YAML parser when the
declared format is yaml or the format is auto and the content contains
`---`; otherwise to the dotenv parser.  The YAML parse itself is external
and is represented by `yamlParsed`. -/
def import_parse (format : ImportFormat) (content : Str) :
    Except Unit ParsedContent :=
  if format = .json ∨ (format = .auto ∧ startsWithBrace content) then
    if json_loads_ok content then .ok (.jsonParsed content) else .error ()
  else if format = .yaml ∨ (format = .auto ∧ hasTripleDash content) then
    .ok (.yamlParsed content)
  else .ok (.envParsed (parse_env_file content))

end FormatDetection

/-- C3: an import whose parsed keys intersect the existing keys is rejected
as a whole with the conflict outcome listing exactly the keys that already
exist, leaving the state unchanged; the same single-key import with
overwrite updates the existing variable and reports
`imported = 0, updated = 1, failed = 0`. -/
theorem import_conflict_behavior :
    (∀ (key : Option FernetCipher) state (data : List (Str × Option Str)) k,
      validate_env_data data = [] →
      k ∈ data.map Prod.fst → (state.any fun p => p.1 = k) = true →
      import_env key state data false =
        .conflict ((data.map Prod.fst).filter fun k2 =>
          state.any fun p => p.1 = k2) state ∧
      ∀ k2, (k2 ∈ (data.map Prod.fst).filter fun k3 =>
          state.any fun p => p.1 = k3) ↔
        (k2 ∈ data.map Prod.fst ∧ (state.any fun p => p.1 = k2) = true)) ∧
    (∀ (f : FernetCipher) state k v,
      validate_env_data [(k, some v)] = [] → v ≠ [] →
      (state.any fun p => p.1 = k) = true →
      import_env (some f) state [(k, some v)] true =
        .success ⟨0, 1, 0⟩ (state.map fun p =>
          if p.1 = k then (p.1, b64encode (f.encrypt v)) else p)) := by
  constructor
  · intro key state data k hval hk hany
    have hkc : k ∈ (data.map Prod.fst).filter fun k2 =>
        state.any fun p => p.1 = k2 := List.mem_filter.mpr ⟨hk, hany⟩
    have hne : ((data.map Prod.fst).filter fun k2 =>
        state.any fun p => p.1 = k2) ≠ [] := List.ne_nil_of_mem hkc
    refine ⟨?_, fun k2 => List.mem_filter⟩
    simp [import_env, hval, hne]
  · intro f state k v hval hv hany
    simp [import_env, hval, hany, importWriteStep, encrypt_value, hv]

theorem import_conflict_behavior_witness :
    import_env (some probeCipher) [(lit "DATABASE_URL", lit "zz")]
      [(lit "DATABASE_URL", some (lit "v")), (lit "OTHER", some (lit "w"))]
      false =
      .conflict [lit "DATABASE_URL"] [(lit "DATABASE_URL", lit "zz")] ∧
    import_env (some probeCipher) [(lit "DATABASE_URL", lit "zz")]
      [(lit "DATABASE_URL", some (lit "v"))] true =
      .success ⟨0, 1, 0⟩
        [(lit "DATABASE_URL", b64encode (probeCipher.encrypt (lit "v")))] := by
  constructor
  · exact (import_conflict_behavior.1 (some probeCipher)
      [(lit "DATABASE_URL", lit "zz")]
      [(lit "DATABASE_URL", some (lit "v")), (lit "OTHER", some (lit "w"))]
      (lit "DATABASE_URL") (by rfl) (by decide) (by decide)).1
  · exact import_conflict_behavior.2 probeCipher
      [(lit "DATABASE_URL", lit "zz")] (lit "DATABASE_URL") (lit "v")
      (by rfl) (by decide) (by decide)

/-- C7 counterexample: with format `auto`, content that starts with a brace
but is not a valid JSON object rejects the import with a parse error —
it is not detected as YAML or dotenv as the claim's fallback order states. -/
theorem auto_detect_cex :
    import_parse .auto [123, 120] = .error () ∧
    json_loads_ok [123, 120] = false := by
  constructor <;> rfl

/-- C7 (amended): with format `auto`, content whose stripped form starts
with `{` is handed to the JSON parser — success selects JSON, failure
rejects the import instead of falling through; otherwise content containing
`---` is handed to the YAML parser (whether or not it is a mapping);
otherwise the content is parsed as dotenv. -/
theorem auto_detect_amended (content : Str) :
    (startsWithBrace content = true → json_loads_ok content = true →
      import_parse .auto content = .ok (.jsonParsed content)) ∧
    (startsWithBrace content = true → json_loads_ok content = false →
      import_parse .auto content = .error ()) ∧
    (startsWithBrace content = false → hasTripleDash content = true →
      import_parse .auto content = .ok (.yamlParsed content)) ∧
    (startsWithBrace content = false → hasTripleDash content = false →
      import_parse .auto content = .ok (.envParsed (parse_env_file content))) := by
  refine ⟨fun h1 h2 => ?_, fun h1 h2 => ?_, fun h1 h2 => ?_, fun h1 h2 => ?_⟩ <;>
    simp [import_parse, h1, h2]

theorem auto_detect_amended_witness :
    import_parse .auto (lit "\x7b\x7d") = .ok (.jsonParsed (lit "\x7b\x7d")) ∧
    import_parse .auto [123, 121] = .error () ∧
    import_parse .auto (lit "---") = .ok (.yamlParsed (lit "---")) ∧
    import_parse .auto (lit "A=1") =
      .ok (.envParsed (parse_env_file (lit "A=1"))) :=
  ⟨(auto_detect_amended (lit "\x7b\x7d")).1 (by rfl) (by rfl),
   (auto_detect_amended [123, 121]).2.1 (by rfl) (by rfl),
   (auto_detect_amended (lit "---")).2.2.1 (by rfl) (by rfl),
   (auto_detect_amended (lit "A=1")).2.2.2 (by rfl) (by rfl)⟩

theorem keyStart_strict_loose (c : Nat) (h : isUpperCp c = true) :
    isKeyStartLoose c = true := by
  simp [isUpperCp] at h
  simp [isKeyStartLoose]
  omega

theorem keyChar_strict_loose (c : Nat) (h : isKeyCharStrict c = true) :
    isKeyCharLoose c = true := by
  simp [isKeyCharStrict, isUpperCp] at h
  simp [isKeyCharLoose, isKeyStartLoose]
  omega

/-- The strict create-time key convention implies the loose import-time
convention. -/
theorem strict_imp_loose (k : Str) (h : reMatchKeyStrict k = true) :
    reMatchKeyLoose k = true := by
  unfold reMatchKeyStrict at h
  unfold reMatchKeyLoose
  cases hd : dropFinalNewline k with
  | nil => rw [hd] at h; simp at h
  | cons c rest =>
    rw [hd] at h
    simp only [List.all_eq_true, decide_eq_true_eq] at h ⊢
    exact ⟨keyStart_strict_loose c h.1, fun x hx => keyChar_strict_loose x (h.2 x hx)⟩

/-- C8 counterexample: the key `abc` passes import validation
(`validate_env_data` reports no errors) but is rejected by the
single-variable create validation (`validate_key`): the import key
convention is looser than the create convention, not the same. -/
theorem import_key_convention_cex :
    validate_env_data [(lit "abc", some (lit "v"))] = [] ∧
    validate_key (lit "abc") = none := by
  constructor <;> rfl

/-- C8 (amended): import validates keys against the looser pattern
`^[A-Za-z_][A-Za-z0-9_]*$`, not the strict create-time pattern
`^[A-Z][A-Z0-9_]*$`: a parsed mapping containing a key violating the
loose pattern is rejected before any write, and every key accepted by
single-variable create passes import validation — but, as the
counterexample shows, not conversely. -/
theorem import_key_convention_amended :
    (∀ (key : Option FernetCipher) state (data : List (Str × Option Str))
        k v overwrite,
      (k, v) ∈ data → reMatchKeyLoose k = false →
      import_env key state data overwrite =
        .invalid (validate_env_data data) state ∧
      validate_env_data data ≠ []) ∧
    (∀ k n, validate_key k = some n → reMatchKeyLoose k = true) := by
  constructor
  · intro key state data k v overwrite hmem hloose
    have hne : validate_env_data data ≠ [] := by
      have hfk := List.mem_map_of_mem (fun kv : Str × Option Str =>
        if pyStrip kv.1 = [] then [ValidationErr.emptyKey]
        else
          (if ¬ reMatchKeyLoose kv.1 then [ValidationErr.badKeyFormat kv.1]
            else []) ++
          (match kv.2 with
           | none => []
           | some v => if 10000 < v.length then [ValidationErr.valueTooLong kv.1]
             else [])) hmem
      by_cases hs : pyStrip k = []
      · have he : ValidationErr.emptyKey ∈ validate_env_data data := by
          unfold validate_env_data
          refine List.mem_append_left _ (List.mem_append_left _ ?_)
          exact List.mem_flatten.mpr ⟨_, hfk, by simp [hs]⟩
        exact List.ne_nil_of_mem he
      · have he : ValidationErr.badKeyFormat k ∈ validate_env_data data := by
          unfold validate_env_data
          refine List.mem_append_left _ (List.mem_append_left _ ?_)
          exact List.mem_flatten.mpr ⟨_, hfk, by simp [hs, hloose]⟩
        exact List.ne_nil_of_mem he
    refine ⟨?_, hne⟩
    simp [import_env, hne]
  · intro k n h
    unfold validate_key at h
    split at h
    · simp at h
    split at h
    · simp at h
    · rename_i hstrict
      rw [not_not] at hstrict
      exact strict_imp_loose k (by simpa using hstrict)

section DotenvRoundtrip

/-- Character-wise form of `escapeValue`. -/
def escChars : Str → Str
  | [] => []
  | c :: r =>
    (if c = 92 then [92, 92] else if c = 34 then [92, 34] else [c]) ++ escChars r

theorem pyReplace1_append (a : Nat) (r x y : Str) :
    pyReplace1 a r (x ++ y) = pyReplace1 a r x ++ pyReplace1 a r y := by
  induction x with
  | nil => rfl
  | cons c cs ih => simp [pyReplace1, ih]

theorem escapeValue_eq (v : Str) : escapeValue v = escChars v := by
  unfold escapeValue
  induction v with
  | nil => rfl
  | cons c r ih =>
    show pyReplace1 34 [92, 34]
      ((if c = 92 then [92, 92] else [c]) ++ pyReplace1 92 [92, 92] r) = _
    rw [pyReplace1_append]
    by_cases h92 : c = 92
    · simp [h92, pyReplace1, escChars, ih]
    · by_cases h34 : c = 34
      · simp [h92, h34, pyReplace1, escChars, ih]
      · simp [h92, h34, pyReplace1, escChars, ih]

/-- State of the escaped text after the `\"` unescaping pass. -/
def gStr : Str → Str
  | [] => []
  | c :: r => (if c = 92 then [92, 92] else [c]) ++ gStr r

/-- State of the escaped text after the `\"` and `\'` unescaping passes. -/
def uStr : Str → Str
  | [] => []
  | 92 :: 39 :: r => 92 :: 39 :: uStr r
  | 92 :: c :: r => 92 :: 92 :: uStr (c :: r)
  | [92] => [92, 92]
  | c :: r => c :: uStr r

theorem pyReplace2_cons_ne (a b : Nat) (r : Str) (c : Nat) (s : Str)
    (h : c ≠ a ∨ s.head? ≠ some b) :
    pyReplace2 a b r (c :: s) = c :: pyReplace2 a b r s := by
  cases s with
  | nil => rfl
  | cons d rest =>
    have hc : ¬(c = a ∧ d = b) := by
      rcases h with h | h
      · exact fun hp => h hp.1
      · exact fun hp => h (by simp [hp.2])
    simp [pyReplace2, hc]

theorem pyReplace2_cons2 (a b : Nat) (r s : Str) :
    pyReplace2 a b r (a :: b :: s) = r ++ pyReplace2 a b r s := by
  simp [pyReplace2]

theorem escChars_cons92 (r : Str) : escChars (92 :: r) = 92 :: 92 :: escChars r := by
  simp [escChars]

theorem escChars_cons34 (r : Str) : escChars (34 :: r) = 92 :: 34 :: escChars r := by
  simp [escChars]

theorem escChars_cons (c : Nat) (r : Str) (h92 : c ≠ 92) (h34 : c ≠ 34) :
    escChars (c :: r) = c :: escChars r := by
  simp [escChars, h92, h34]

theorem gStr_cons92 (r : Str) : gStr (92 :: r) = 92 :: 92 :: gStr r := by
  simp [gStr]

theorem gStr_cons (c : Nat) (r : Str) (h92 : c ≠ 92) :
    gStr (c :: r) = c :: gStr r := by
  simp [gStr, h92]

theorem uStr_cons_bq (r : Str) : uStr (92 :: 39 :: r) = 92 :: 39 :: uStr r := by
  simp [uStr]

theorem uStr_cons_b (c : Nat) (r : Str) (h39 : c ≠ 39) :
    uStr (92 :: c :: r) = 92 :: 92 :: uStr (c :: r) := by
  simp [uStr, h39]

theorem uStr_single_b : uStr [92] = [92, 92] := by
  simp [uStr]

theorem uStr_cons (c : Nat) (r : Str) (h92 : c ≠ 92) :
    uStr (c :: r) = c :: uStr r := by
  cases r with
  | nil => simp [uStr, h92]
  | cons d rest => simp [uStr, h92]

theorem escChars_head_ne34 (v : Str) : (escChars v).head? ≠ some 34 := by
  cases v with
  | nil => simp [escChars]
  | cons c r =>
    by_cases h92 : c = 92
    · simp [escChars, h92]
    · by_cases h34 : c = 34
      · simp [escChars, h92, h34]
      · simp [escChars, h92, h34]

theorem gStr_head_ne39 (c : Nat) (r : Str) (h : c ≠ 39) :
    (gStr (c :: r)).head? ≠ some 39 := by
  by_cases h92 : c = 92
  · simp [gStr, h92]
  · simp [gStr, h92]
    omega

theorem stageA : ∀ v : Str, pyReplace2 92 34 [34] (escChars v) = gStr v
  | [] => rfl
  | c :: r => by
    by_cases h92 : c = 92
    · subst h92
      rw [escChars_cons92,
        pyReplace2_cons_ne _ _ _ _ _ (Or.inr (by simp)),
        pyReplace2_cons_ne _ _ _ _ _ (Or.inr (escChars_head_ne34 r)),
        stageA r, gStr_cons92]
    · by_cases h34 : c = 34
      · subst h34
        rw [escChars_cons34, pyReplace2_cons2, stageA r,
          gStr_cons 34 r (by omega)]
        rfl
      · rw [escChars_cons c r h92 h34,
          pyReplace2_cons_ne _ _ _ _ _ (Or.inl h92), stageA r,
          gStr_cons c r h92]

theorem stageB : ∀ v : Str, pyReplace2 92 39 [39] (gStr v) = uStr v
  | [] => rfl
  | [c] => by
    by_cases h92 : c = 92
    · subst h92
      rw [gStr_cons92]
      show pyReplace2 92 39 [39] [92, 92] = _
      rw [uStr_single_b]
      simp [pyReplace2]
    · rw [gStr_cons c [] h92]
      show pyReplace2 92 39 [39] [c] = _
      rw [uStr_cons c [] h92]
      rfl
  | c :: d :: r => by
    by_cases h92 : c = 92
    · subst h92
      by_cases h39 : d = 39
      · subst h39
        rw [gStr_cons92, gStr_cons 39 r (by omega),
          pyReplace2_cons_ne _ _ _ _ _ (Or.inr (by simp)),
          pyReplace2_cons2, stageB r, uStr_cons_bq]
        rfl
      · rw [gStr_cons92,
          pyReplace2_cons_ne _ _ _ _ _ (Or.inr (by simp)),
          pyReplace2_cons_ne _ _ _ _ _ (Or.inr (gStr_head_ne39 d r h39)),
          stageB (d :: r), uStr_cons_b d r h39]
    · rw [gStr_cons c (d :: r) h92,
        pyReplace2_cons_ne _ _ _ _ _ (Or.inl h92), stageB (d :: r),
        uStr_cons c (d :: r) h92]

theorem stageC : ∀ v : Str, pyReplace2 92 92 [92] (uStr v) = v
  | [] => rfl
  | [c] => by
    by_cases h92 : c = 92
    · subst h92
      rw [uStr_single_b]
      simp [pyReplace2]
    · rw [uStr_cons c [] h92]
      rfl
  | c :: d :: r => by
    by_cases h92 : c = 92
    · subst h92
      by_cases h39 : d = 39
      · subst h39
        rw [uStr_cons_bq,
          pyReplace2_cons_ne _ _ _ _ _ (Or.inr (by simp)),
          pyReplace2_cons_ne _ _ _ _ _ (Or.inl (by omega)), stageC r]
      · rw [uStr_cons_b d r h39, pyReplace2_cons2, stageC (d :: r)]
        rfl
    · rw [uStr_cons c (d :: r) h92,
        pyReplace2_cons_ne _ _ _ _ _ (Or.inl h92), stageC (d :: r)]

/-- The dotenv unescaping inverts the dotenv escaping on every value. -/
theorem unescape_escape (v : Str) : unescapeValue (escapeValue v) = v := by
  rw [escapeValue_eq]
  unfold unescapeValue
  rw [stageA, stageB, stageC]

theorem dropWhile_cons_of_not (p : Nat → Bool) (a : Nat) (l : Str)
    (h : p a = false) : List.dropWhile p (a :: l) = a :: l := by
  rw [List.dropWhile_cons, if_neg (by simp [h])]

theorem pyStrip_noop (s : Str)
    (h1 : ∀ c, s.head? = some c → isPySpace c = false)
    (h2 : ∀ c, s.getLast? = some c → isPySpace c = false) :
    pyStrip s = s := by
  unfold pyStrip
  cases hs : s with
  | nil => rfl
  | cons a t =>
    have hh : isPySpace a = false := h1 a (by rw [hs]; rfl)
    rw [dropWhile_cons_of_not _ _ _ hh]
    cases hrev : (a :: t).reverse with
    | nil => exact absurd hrev (by simp)
    | cons b u =>
      have hb : (a :: t).getLast? = some b := by
        rw [← List.head?_reverse, hrev]
        rfl
      have hbs : isPySpace b = false := h2 b (by rw [hs]; exact hb)
      rw [dropWhile_cons_of_not _ _ _ hbs, ← hrev, List.reverse_reverse]

theorem length_dropWhile_le (p : Nat → Bool) (l : Str) :
    (l.dropWhile p).length ≤ l.length :=
  (List.dropWhile_sublist p).length_le

theorem dropWhile_eq_self_of_length (p : Nat → Bool) (l : Str)
    (h : (l.dropWhile p).length = l.length) : l.dropWhile p = l := by
  cases l with
  | nil => rfl
  | cons a t =>
    by_cases hp : p a
    · rw [List.dropWhile_cons, if_pos (by simp [hp])] at h ⊢
      have := length_dropWhile_le p t
      simp at h
      omega
    · rw [List.dropWhile_cons, if_neg (by simp [hp])]

theorem head_not_of_dropWhile_eq_self (p : Nat → Bool) (l : Str)
    (h : l.dropWhile p = l) : ∀ c, l.head? = some c → p c = false := by
  intro c hc
  cases l with
  | nil => simp at hc
  | cons a t =>
    have ha : a = c := by simpa using hc
    subst ha
    by_cases hp : p a
    · rw [List.dropWhile_cons, if_pos (by simp [hp])] at h
      have hlen := congrArg List.length h
      have := length_dropWhile_le p t
      simp at hlen
      omega
    · simpa using hp

/-- A string fixed by `strip` has no leading or trailing whitespace. -/
theorem strip_eq_self_edges (s : Str) (h : pyStrip s = s) :
    (∀ c, s.head? = some c → isPySpace c = false) ∧
    (∀ c, s.getLast? = some c → isPySpace c = false) := by
  unfold pyStrip at h
  have hlen : (((s.dropWhile isPySpace).reverse.dropWhile isPySpace).reverse).length
      = s.length := by rw [h]
  simp only [List.length_reverse] at hlen
  have hle1 : ((s.dropWhile isPySpace).reverse.dropWhile isPySpace).length ≤
      (s.dropWhile isPySpace).reverse.length := length_dropWhile_le _ _
  have hle2 : (s.dropWhile isPySpace).length ≤ s.length :=
    length_dropWhile_le _ _
  simp only [List.length_reverse] at hle1
  have hlen1 : (s.dropWhile isPySpace).length = s.length := by omega
  have hd1 : s.dropWhile isPySpace = s :=
    dropWhile_eq_self_of_length _ _ hlen1
  have hlen2 : ((s.dropWhile isPySpace).reverse.dropWhile isPySpace).length =
      (s.dropWhile isPySpace).reverse.length := by
    simp only [List.length_reverse]
    omega
  have hd2 : (s.dropWhile isPySpace).reverse.dropWhile isPySpace =
      (s.dropWhile isPySpace).reverse :=
    dropWhile_eq_self_of_length _ _ hlen2
  rw [hd1] at hd2
  refine ⟨head_not_of_dropWhile_eq_self _ _ hd1, fun c hc => ?_⟩
  have := head_not_of_dropWhile_eq_self _ _ hd2 c
  rw [List.head?_reverse] at this
  exact this hc

theorem dropFinalNewline_noop (s : Str) (h : s.getLast? ≠ some 10) :
    dropFinalNewline s = s := by
  unfold dropFinalNewline
  rw [if_neg h]

/-- Keys as they occur in stored variables: a loose-start character followed
by loose key characters (no trailing-newline allowance). -/
def isKeyChars (k : Str) : Bool :=
  match k with
  | [] => false
  | c :: rest => isKeyStartLoose c ∧ rest.all isKeyCharLoose

theorem keyStartLoose_char (c : Nat) (h : isKeyStartLoose c = true) :
    isKeyCharLoose c = true := by
  simp [isKeyCharLoose, h]

theorem keyCharLoose_props (c : Nat) (h : isKeyCharLoose c = true) :
    isPySpace c = false ∧ isLineBreak c = false ∧ c ≠ 61 ∧ c ≠ 35 := by
  simp [isKeyCharLoose, isKeyStartLoose] at h
  refine ⟨?_, ?_, by omega, by omega⟩
  · simp [isPySpace]
    omega
  · simp [isLineBreak]
    omega

theorem isKeyChars_all (k : Str) (h : isKeyChars k = true) :
    ∀ c ∈ k, isKeyCharLoose c = true := by
  cases k with
  | nil => simp [isKeyChars] at h
  | cons c rest =>
    simp only [isKeyChars, List.all_eq_true, decide_eq_true_eq] at h
    intro x hx
    rcases List.mem_cons.mp hx with hx | hx
    · subst hx
      exact keyStartLoose_char x h.1
    · exact h.2 x hx

theorem isKeyChars_ne_nil (k : Str) (h : isKeyChars k = true) : k ≠ [] := by
  cases k with
  | nil => simp [isKeyChars] at h
  | cons c rest => simp

theorem isKeyChars_loose (k : Str) (h : isKeyChars k = true) :
    reMatchKeyLoose k = true := by
  cases k with
  | nil => simp [isKeyChars] at h
  | cons c rest =>
    have hlast : (c :: rest).getLast? ≠ some 10 := by
      intro he
      have h10 : (10 : Nat) ∈ c :: rest := List.mem_of_getLast?_eq_some he
      have := keyCharLoose_props 10 (isKeyChars_all _ h 10 h10)
      simp [isLineBreak] at this
    unfold reMatchKeyLoose
    rw [dropFinalNewline_noop _ hlast]
    simpa [isKeyChars] using h

theorem isKeyChars_strip (k : Str) (h : isKeyChars k = true) :
    pyStrip k = k := by
  refine pyStrip_noop k (fun c hc => ?_) (fun c hc => ?_)
  · have hm : c ∈ k := by
      cases k with
      | nil => simp at hc
      | cons a t =>
        have : a = c := by simpa using hc
        simp [← this]
    exact (keyCharLoose_props c (isKeyChars_all k h c hm)).1
  · have hm : c ∈ k := List.mem_of_getLast?_eq_some hc
    exact (keyCharLoose_props c (isKeyChars_all k h c hm)).1

theorem isKeyChars_head_ne35 (k : Str) (h : isKeyChars k = true) :
    k.head? ≠ some 35 := by
  cases k with
  | nil => simp
  | cons c rest =>
    simp only [isKeyChars, List.all_eq_true, decide_eq_true_eq] at h
    have := h.1
    simp [isKeyStartLoose] at this
    simp
    omega

theorem splitFirstEq_append (k v : Str) (hk : ∀ c ∈ k, c ≠ 61) :
    splitFirstEq (k ++ 61 :: v) = some (k, v) := by
  induction k with
  | nil => simp [splitFirstEq]
  | cons c cs ih =>
    have hc : c ≠ 61 := hk c (by simp)
    show splitFirstEq (c :: (cs ++ 61 :: v)) = _
    unfold splitFirstEq
    rw [if_neg hc, ih fun x hx => hk x (by simp [hx])]

theorem pySplitlines_cons_break (c : Nat) (rest : Str) (h13 : c ≠ 13)
    (hbr : isLineBreak c = true) :
    pySplitlines (c :: rest) = [] :: pySplitlines rest := by
  rw [pySplitlines.eq_def]
  dsimp only
  rw [if_neg h13, if_pos (by simp [hbr])]

theorem pySplitlines_cons_nobreak (c : Nat) (rest : Str) (h13 : c ≠ 13)
    (hbr : isLineBreak c = false) :
    pySplitlines (c :: rest) =
      match pySplitlines rest with
      | [] => [[c]]
      | l :: ls => (c :: l) :: ls := by
  rw [pySplitlines.eq_def]
  dsimp only
  rw [if_neg h13, if_neg (by simp [hbr])]

theorem pySplitlines_append_line (line rest : Str)
    (h : ∀ c ∈ line, isLineBreak c = false) :
    pySplitlines (line ++ 10 :: rest) = line :: pySplitlines rest := by
  induction line with
  | nil =>
    show pySplitlines (10 :: rest) = [] :: pySplitlines rest
    exact pySplitlines_cons_break 10 rest (by omega) (by simp [isLineBreak])
  | cons c cs ih =>
    have hc : isLineBreak c = false := h c (by simp)
    have hc13 : ¬ c = 13 := by
      intro he
      rw [he] at hc
      simp [isLineBreak] at hc
    show pySplitlines (c :: (cs ++ 10 :: rest)) = _
    rw [pySplitlines_cons_nobreak c _ hc13 hc]
    rw [ih fun x hx => h x (by simp [hx])]

theorem pySplitlines_joinNl (ls : List Str) (hne : ls ≠ [])
    (h : ∀ l ∈ ls, ∀ c ∈ l, isLineBreak c = false) :
    pySplitlines (joinNl ls ++ [10]) = ls := by
  induction ls with
  | nil => exact absurd rfl hne
  | cons l ls ih =>
    cases ls with
    | nil =>
      show pySplitlines (l ++ 10 :: []) = [l]
      rw [pySplitlines_append_line l [] (h l (by simp))]
      rfl
    | cons l2 ls2 =>
      show pySplitlines ((l ++ 10 :: joinNl (l2 :: ls2)) ++ [10]) = _
      rw [List.append_assoc, List.cons_append]
      rw [pySplitlines_append_line l _ (h l (by simp))]
      rw [ih (by simp) fun x hx => h x (by simp [hx])]

theorem escChars_mem (v : Str) (c : Nat) (hc : c ∈ escChars v) :
    c = 92 ∨ c ∈ v := by
  induction v with
  | nil => simp [escChars] at hc
  | cons d r ih =>
    unfold escChars at hc
    rcases List.mem_append.mp hc with hc | hc
    · by_cases h92 : d = 92
      · rw [if_pos h92] at hc
        simp at hc
        omega
      · by_cases h34 : d = 34
        · rw [if_neg h92, if_pos h34] at hc
          simp at hc
          rcases hc with hc | hc
          · omega
          · right
            simp [hc, h34]
        · rw [if_neg h92, if_neg h34] at hc
          simp at hc
          right
          simp [hc]
    · rcases ih hc with hc | hc
      · exact Or.inl hc
      · exact Or.inr (List.mem_cons_of_mem d hc)

theorem needsQuote_false_mem (v : Str) (h : needsQuote v = false) :
    ¬ 32 ∈ v ∧ ¬ 34 ∈ v ∧ ¬ 10 ∈ v := by
  simp [needsQuote, List.contains] at h
  exact ⟨h.1, h.2.1, h.2.2⟩

theorem formatLine_no_break (k v : Str) (hk : isKeyChars k = true)
    (hv : ∀ c ∈ v, isLineBreak c = false) :
    ∀ c ∈ formatLine k v, isLineBreak c = false := by
  intro c hc
  unfold formatLine at hc
  by_cases hq : needsQuote v
  · rw [if_pos hq] at hc
    rcases List.mem_append.mp hc with hc | hc
    · rcases List.mem_append.mp hc with hc | hc
      · rcases List.mem_append.mp hc with hc | hc
        · exact (keyCharLoose_props c (isKeyChars_all k hk c hc)).2.1
        · simp at hc
          rcases hc with hc | hc <;> simp [hc, isLineBreak]
      · rw [escapeValue_eq] at hc
        rcases escChars_mem v c hc with hc | hc
        · simp [hc, isLineBreak]
        · exact hv c hc
    · simp at hc
      simp [hc, isLineBreak]
  · rw [if_neg hq] at hc
    rcases List.mem_append.mp hc with hc | hc
    · rcases List.mem_append.mp hc with hc | hc
      · exact (keyCharLoose_props c (isKeyChars_all k hk c hc)).2.1
      · simp at hc
        simp [hc, isLineBreak]
    · exact hv c hc

theorem dictInsert_append (acc : List (Str × Str)) (k v : Str)
    (h : (acc.any fun p => p.1 = k) = false) :
    dictInsert acc k v = acc ++ [(k, v)] := by
  simp only [dictInsert, h]
  rw [if_neg (by simp)]

/-- Parsing one generated dotenv line recovers the pair. -/
theorem parseStep_formatLine (acc : List (Str × Str)) (k v : Str)
    (hk : isKeyChars k = true)
    (hv : ∀ c ∈ v, isLineBreak c = false)
    (hunq : needsQuote v = false → pyStrip v = v ∧
      ¬(2 ≤ v.length ∧ v.head? = some 39 ∧ v.getLast? = some 39)) :
    parseStep acc (formatLine k v) = dictInsert acc k v := by
  obtain ⟨kc, kt, rfl⟩ : ∃ kc kt, k = kc :: kt := by
    cases k with
    | nil => simp [isKeyChars] at hk
    | cons a b => exact ⟨a, b, rfl⟩
  have hkc_start : isKeyStartLoose kc = true := by
    simp only [isKeyChars, List.all_eq_true, decide_eq_true_eq] at hk
    exact hk.1
  have hkc_sp : isPySpace kc = false :=
    (keyCharLoose_props kc (keyStartLoose_char kc hkc_start)).1
  have hkc_35 : kc ≠ 35 := by
    simp [isKeyStartLoose] at hkc_start
    omega
  have hk61 : ∀ c ∈ kc :: kt, c ≠ 61 := fun c hc =>
    (keyCharLoose_props c (isKeyChars_all _ hk c hc)).2.2.1
  by_cases hq : needsQuote v = true
  · -- quoted line: kc :: kt ++ 61 :: 34 :: escapeValue v ++ [34]
    have hline : formatLine (kc :: kt) v =
        (kc :: kt) ++ 61 :: (34 :: (escapeValue v ++ [34])) := by
      unfold formatLine
      rw [if_pos hq]
      simp
    have htok_last : (34 :: (escapeValue v ++ [34])).getLast? = some 34 := by
      rw [show (34 : Nat) :: (escapeValue v ++ [34]) =
        ((34 :: escapeValue v) ++ [34] : Str) from by simp,
        List.getLast?_concat]
    have hline_strip : pyStrip (formatLine (kc :: kt) v) =
        formatLine (kc :: kt) v := by
      rw [hline]
      refine pyStrip_noop _ (fun c hc => ?_) (fun c hc => ?_)
      · have hec : kc = c := by simpa using hc
        rw [← hec]
        exact hkc_sp
      · rw [List.getLast?_append] at hc
        rw [show ((61 : Nat) :: (34 :: (escapeValue v ++ [34]))).getLast? =
          some 34 from by
            rw [show (61 : Nat) :: (34 :: (escapeValue v ++ [34])) =
              ((61 :: 34 :: escapeValue v) ++ [34] : Str) from by simp,
              List.getLast?_concat]] at hc
        have hec : 34 = c := by simpa using hc
        subst hec
        decide
    have hsplit : splitFirstEq (formatLine (kc :: kt) v) =
        some (kc :: kt, 34 :: (escapeValue v ++ [34])) := by
      rw [hline]
      exact splitFirstEq_append _ _ hk61
    have htok_strip : pyStrip (34 :: (escapeValue v ++ [34])) =
        34 :: (escapeValue v ++ [34]) := by
      refine pyStrip_noop _ (fun c hc => ?_) (fun c hc => ?_)
      · have hec : 34 = c := by simpa using hc
        subst hec
        decide
      · rw [htok_last] at hc
        have hec : 34 = c := by simpa using hc
        subst hec
        decide
    unfold parseStep
    dsimp only
    rw [hline_strip, hsplit]
    rw [if_neg (by rw [hline]; simp)]
    rw [if_neg (by
      rw [hline]
      simp [hkc_35])]
    dsimp only
    rw [isKeyChars_strip _ hk, htok_strip]
    rw [if_neg (by simp [isKeyChars_ne_nil _ hk])]
    rw [if_neg (by simp [isKeyChars_loose _ hk])]
    rw [if_pos (by
      refine ⟨by simp, Or.inl ⟨rfl, htok_last⟩⟩)]
    rw [show ((34 : Nat) :: (escapeValue v ++ [34])).drop 1 =
      escapeValue v ++ [34] from rfl]
    rw [List.dropLast_concat, unescape_escape]
  · -- unquoted line: kc :: kt ++ 61 :: v
    have hq' : needsQuote v = false := by
      simpa using hq
    obtain ⟨hstrip, hsq⟩ := hunq hq'
    obtain ⟨h32, h34, h10⟩ := needsQuote_false_mem v hq'
    have hline : formatLine (kc :: kt) v = (kc :: kt) ++ 61 :: v := by
      unfold formatLine
      rw [if_neg (by simp [hq'])]
      simp
    have hline_strip : pyStrip (formatLine (kc :: kt) v) =
        formatLine (kc :: kt) v := by
      rw [hline]
      refine pyStrip_noop _ (fun c hc => ?_) (fun c hc => ?_)
      · have hec : kc = c := by simpa using hc
        rw [← hec]
        exact hkc_sp
      · rw [List.getLast?_append] at hc
        cases hveq : v with
        | nil =>
          subst hveq
          have hec : 61 = c := by simpa using hc
          subst hec
          decide
        | cons v0 vt =>
          rw [hveq] at hc
          rw [List.getLast?_cons_cons] at hc
          cases hgl : (v0 :: vt).getLast? with
          | none => simp at hgl
          | some x =>
            rw [hgl] at hc
            have hxc : x = c := by simpa using hc
            subst hxc
            rw [← hveq] at hgl
            exact (strip_eq_self_edges v hstrip).2 x hgl
    have hsplit : splitFirstEq (formatLine (kc :: kt) v) =
        some (kc :: kt, v) := by
      rw [hline]
      exact splitFirstEq_append _ _ hk61
    unfold parseStep
    dsimp only
    rw [hline_strip, hsplit]
    rw [if_neg (by rw [hline]; simp)]
    rw [if_neg (by
      rw [hline]
      simp [hkc_35])]
    dsimp only
    rw [isKeyChars_strip _ hk, hstrip]
    rw [if_neg (by simp [isKeyChars_ne_nil _ hk])]
    rw [if_neg (by simp [isKeyChars_loose _ hk])]
    rw [if_neg (by
      rintro ⟨hlen, hdet | hdet⟩
      · exact h34 (List.mem_of_mem_head? (by rw [hdet.1]; simp))
      · exact hsq ⟨hlen, hdet⟩)]

theorem strLt_irrefl : ∀ a : Str, strLt a a = false
  | [] => rfl
  | c :: cs => by simp [strLt, strLt_irrefl cs]

theorem strLt_ne (a b : Str) (h : strLt a b = true) : a ≠ b := by
  intro he
  rw [he, strLt_irrefl] at h
  exact absurd h (by simp)

theorem foldl_parseStep_lines (pairs : List (Str × Str)) :
    ∀ acc : List (Str × Str),
    (∀ p ∈ pairs, isKeyChars p.1 = true) →
    (∀ p ∈ pairs, ∀ c ∈ p.2, isLineBreak c = false) →
    (∀ p ∈ pairs, needsQuote p.2 = false → pyStrip p.2 = p.2 ∧
      ¬(2 ≤ p.2.length ∧ p.2.head? = some 39 ∧ p.2.getLast? = some 39)) →
    (∀ p ∈ pairs, (acc.any fun q => q.1 = p.1) = false) →
    pairs.Pairwise (fun p q => p.1 ≠ q.1) →
    (pairs.map fun kv => formatLine kv.1 kv.2).foldl parseStep acc =
      acc ++ pairs := by
  induction pairs with
  | nil => intro acc _ _ _ _ _; simp
  | cons p ps ih =>
    intro acc hks hvs hus hfresh hdist
    obtain ⟨hd1, hd2⟩ := List.pairwise_cons.mp hdist
    simp only [List.map_cons, List.foldl_cons]
    rw [parseStep_formatLine acc p.1 p.2 (hks p (by simp)) (hvs p (by simp))
      (hus p (by simp))]
    rw [dictInsert_append acc p.1 p.2 (hfresh p (by simp))]
    rw [ih (acc ++ [(p.1, p.2)])
      (fun q hq => hks q (by simp [hq]))
      (fun q hq => hvs q (by simp [hq]))
      (fun q hq => hus q (by simp [hq]))
      (fun q hq => by
        rw [List.any_append]
        have h1 : (acc.any fun r => r.1 = q.1) = false := hfresh q (by simp [hq])
        have h2 : p.1 ≠ q.1 := hd1 q hq
        simp [h1, h2])
      hd2]
    simp

theorem sortPairs_sorted (l : List (Str × Str))
    (hsort : l.Pairwise fun p q => strLt p.1 q.1 = true) : sortPairs l = l := by
  induction l with
  | nil => rfl
  | cons x xs ih =>
    obtain ⟨hx, htail⟩ := List.pairwise_cons.mp hsort
    show insertSorted x (sortPairs xs) = x :: xs
    rw [ih htail]
    cases xs with
    | nil => rfl
    | cons y ys =>
      have hle : pairLe x y = true := by
        simp [pairLe, hx y (by simp)]
      simp [insertSorted, hle]

end DotenvRoundtrip

/-- C6 counterexample: the pair `KEY = 'v'` (a value wrapped in single
quotes, which contains no space, double quote or newline and is therefore
exported unquoted) does not survive the dotenv round-trip: the parser
strips the single quotes and yields `v`. -/
theorem dotenv_roundtrip_cex :
    parse_env_file (generate_env_content [(lit "KEY", lit "'v'")]) =
      [(lit "KEY", lit "v")] ∧
    (lit "v" : Str) ≠ lit "'v'" := by
  constructor
  · rfl
  · decide

/-- C6 (amended): the dotenv round-trip reproduces the key/value list
exactly provided the keys are plain identifier keys sorted strictly
ascending, no value contains a line-break character, and every value that
is exported unquoted (no space, double quote or newline) has no leading or
trailing whitespace and is not wrapped in single quotes. -/
theorem dotenv_roundtrip_amended (l : List (Str × Str))
    (hsort : l.Pairwise fun p q => strLt p.1 q.1 = true)
    (hkeys : ∀ p ∈ l, isKeyChars p.1 = true)
    (hvals : ∀ p ∈ l, ∀ c ∈ p.2, isLineBreak c = false)
    (hunq : ∀ p ∈ l, needsQuote p.2 = false → pyStrip p.2 = p.2 ∧
      ¬(2 ≤ p.2.length ∧ p.2.head? = some 39 ∧ p.2.getLast? = some 39)) :
    parse_env_file (generate_env_content l) = l := by
  unfold parse_env_file generate_env_content
  rw [sortPairs_sorted l hsort]
  cases l with
  | nil => rfl
  | cons p ps =>
    rw [pySplitlines_joinNl _ (by simp) (by
      intro li hli c hc
      obtain ⟨q, hq, rfl⟩ := List.mem_map.mp hli
      exact formatLine_no_break q.1 q.2 (hkeys q hq) (hvals q hq) c hc)]
    rw [foldl_parseStep_lines (p :: ps) [] hkeys hvals hunq (by simp)
      (hsort.imp fun h => strLt_ne _ _ h)]
    simp

theorem dotenv_roundtrip_amended_witness :
    parse_env_file (generate_env_content
      [(lit "A_KEY", lit "a b\"c\\d"), (lit "B_KEY", lit "plain")]) =
      [(lit "A_KEY", lit "a b\"c\\d"), (lit "B_KEY", lit "plain")] :=
  dotenv_roundtrip_amended _ (by decide) (by decide) (by decide) (by decide)

theorem import_key_convention_amended_witness :
    import_env (some probeCipher) [] [(lit "bad key", some (lit "v"))] false =
      .invalid (validate_env_data [(lit "bad key", some (lit "v"))]) [] ∧
    validate_env_data [(lit "bad key", some (lit "v"))] ≠ [] ∧
    reMatchKeyLoose (lit "ABC") = true :=
  ⟨(import_key_convention_amended.1 (some probeCipher) []
      [(lit "bad key", some (lit "v"))] (lit "bad key") (some (lit "v")) false
      (by decide) (by rfl)).1,
   (import_key_convention_amended.1 (some probeCipher) []
      [(lit "bad key", some (lit "v"))] (lit "bad key") (some (lit "v")) false
      (by decide) (by rfl)).2,
   import_key_convention_amended.2 (lit "ABC") (lit "ABC") (by rfl)⟩

end KeyNest
